import Mathlib

/-!
Shallow embedding of the `elm327` crate (files `src/lib.rs`, `src/packet.rs`,
`src/error.rs`) and verification of its specification.

Modelling conventions:
* Rust `u64` values are `Nat` with explicit `< 2 ^ 64` bounds where they matter;
  `u8` bytes are `Nat`.
* A serial byte stream is a `List Nat`; exhausting the list models a failing
  `port.read`, which the Rust code maps to `Error::Read`.
* Rust `String`s handled by the scanner are `List Char`; `String::from_utf8`
  is modelled by the executable decoder `utf8Decode` below.
* Fallible Rust functions returning `Result<T, Error>` become
  `Except Error T`.
* The per-line callback `on_str` is modelled as `List Char → Bool`; the read
  loop additionally returns the list of lines the callback was invoked on, so
  that invocation behaviour is observable.
-/

deriving instance DecidableEq for Except

namespace Elm

/-- A decoded response line (`String` in the Rust code). -/
abbrev Line := List Char

/-- The crate's error enum from `src/error.rs`.  The `Serial` payload
(`tokio_serial::Error`) is external to the crate and carries no information
used by any code under verification, so it is dropped; `Packet` carries its
`&'static str` message as a `List Char`. -/
inductive Error where
  | Serial : Error
  | Conversion : Error
  | Clear : Error
  | Write : Error
  | Flush : Error
  | Read : Error
  | TimedOut : Error
  | Packet : List Char → Error
deriving DecidableEq

/-- Is a byte a UTF-8 continuation byte (`0x80..=0xBF`)? -/
def isCont (b : Nat) : Bool := 0x80 ≤ b && b ≤ 0xBF

/-- Scalar value of a 2-byte UTF-8 sequence. -/
def utf8Val2 (b c1 : Nat) : Nat := ((b &&& 0x1F) <<< 6) ||| (c1 &&& 0x3F)

/-- Scalar value of a 3-byte UTF-8 sequence. -/
def utf8Val3 (b c1 c2 : Nat) : Nat :=
  ((b &&& 0x0F) <<< 12) ||| ((c1 &&& 0x3F) <<< 6) ||| (c2 &&& 0x3F)

/-- Scalar value of a 4-byte UTF-8 sequence. -/
def utf8Val4 (b c1 c2 c3 : Nat) : Nat :=
  ((b &&& 0x07) <<< 18) ||| ((c1 &&& 0x3F) <<< 12) |||
    ((c2 &&& 0x3F) <<< 6) ||| (c3 &&& 0x3F)

/-- One character step of `String::from_utf8`: classify the lead byte `b`,
validate and consume its continuation bytes from `rest`, and return the
decoded scalar value together with the bytes remaining after the character.
Strict UTF-8, as in the Rust standard library (RFC 3629 byte ranges: no
overlong forms, no surrogates, max `U+10FFFF`); `none` on any invalid
sequence. -/
def utf8Head (b : Nat) (rest : List Nat) : Option (Nat × List Nat) :=
  if b ≤ 0x7F then some (b, rest)
  else if 0xC2 ≤ b ∧ b ≤ 0xDF then
    match rest with
    | c1 :: r => if isCont c1 then some (utf8Val2 b c1, r) else none
    | _ => none
  else if b = 0xE0 then
    match rest with
    | c1 :: c2 :: r =>
      if (0xA0 ≤ c1 ∧ c1 ≤ 0xBF) ∧ isCont c2 then some (utf8Val3 b c1 c2, r)
      else none
    | _ => none
  else if (0xE1 ≤ b ∧ b ≤ 0xEC) ∨ b = 0xEE ∨ b = 0xEF then
    match rest with
    | c1 :: c2 :: r =>
      if isCont c1 ∧ isCont c2 then some (utf8Val3 b c1 c2, r) else none
    | _ => none
  else if b = 0xED then
    match rest with
    | c1 :: c2 :: r =>
      if (0x80 ≤ c1 ∧ c1 ≤ 0x9F) ∧ isCont c2 then some (utf8Val3 b c1 c2, r)
      else none
    | _ => none
  else if b = 0xF0 then
    match rest with
    | c1 :: c2 :: c3 :: r =>
      if (0x90 ≤ c1 ∧ c1 ≤ 0xBF) ∧ isCont c2 ∧ isCont c3 then
        some (utf8Val4 b c1 c2 c3, r)
      else none
    | _ => none
  else if 0xF1 ≤ b ∧ b ≤ 0xF3 then
    match rest with
    | c1 :: c2 :: c3 :: r =>
      if isCont c1 ∧ isCont c2 ∧ isCont c3 then some (utf8Val4 b c1 c2 c3, r)
      else none
    | _ => none
  else if b = 0xF4 then
    match rest with
    | c1 :: c2 :: c3 :: r =>
      if (0x80 ≤ c1 ∧ c1 ≤ 0x8F) ∧ isCont c2 ∧ isCont c3 then
        some (utf8Val4 b c1 c2 c3, r)
      else none
    | _ => none
  else none

/-- The decoding loop of `String::from_utf8`, with a structural fuel argument
to carry the recursion (one unit per decoded character; `utf8DecodeF_fuel`
below shows any fuel of at least the byte count gives the same result, so the
fuel-exhaustion branch is unreachable from `utf8Decode`). -/
def utf8DecodeF : Nat → List Nat → Option (List Char)
  | _, [] => some []
  | 0, _ :: _ => none
  | f + 1, b :: rest =>
    match utf8Head b rest with
    | some (v, r) => (utf8DecodeF f r).map (fun cs => Char.ofNat v :: cs)
    | none => none

/-- `String::from_utf8` from the Rust standard library: the fueled decoder
run with enough fuel for the whole byte sequence. -/
def utf8Decode (bs : List Nat) : Option (List Char) :=
  utf8DecodeF bs.length bs

/-- The loop body of `Elm327::read` (`src/lib.rs`, lines 200–224), one byte at
a time.  `buf` is the accumulation buffer, `strs` the result vector built so
far.  The second component of the result instruments the run with the list of
lines the callback `p` (Rust `on_str`) was invoked on, from this point of the
scan onwards.  An exhausted byte stream models a failing `port.read`, which
the code maps to `Error::Read`. -/
def readGo (p : Line → Bool) :
    List Nat → List Nat → List Line → Except Error (List Line) × List Line
  | [], _, _ => (.error .Read, [])
  | b :: bs, buf, strs =>
    if b = 13 ∨ b = 10 ∨ b = 62 then
      if buf.isEmpty then
        if b = 62 then (.ok strs, []) else readGo p bs [] strs
      else
        match utf8Decode buf with
        | some s =>
          if p s then
            if b = 62 then (.ok (strs ++ [s]), [s])
            else
              let r := readGo p bs [] (strs ++ [s])
              (r.1, s :: r.2)
          else (.ok (strs ++ [s]), [s])
        | none =>
          if b = 62 then (.ok strs, []) else readGo p bs [] strs
    else readGo p bs (buf ++ [b]) strs

/-- `Elm327::read` (`src/lib.rs`, lines 191–227) applied to the byte stream
delivered by the port after the initial `clear(ClearBuffer::Input)`.  Returns
the `Result<Vec<String>>` together with the instrumented list of lines the
callback was invoked on. -/
def read (p : Line → Bool) (bytes : List Nat) :
    Except Error (List Line) × List Line :=
  readGo p bytes [] []

/-! ### Frame decoder (`src/packet.rs`) -/

/-- Rust's `str::split(c)` on a single-character pattern: the maximal pieces
between occurrences of `c`, keeping empty pieces (so consecutive separators and
separators at either end yield empty strings, as in Rust).  Always returns a
non-empty list. -/
def splitOnChar (c : Char) : List Char → List (List Char)
  | [] => [[]]
  | ch :: rest =>
    if ch = c then [] :: splitOnChar c rest
    else
      match splitOnChar c rest with
      | [] => [[ch]]
      | s :: ss => (ch :: s) :: ss

/-- The literal token `"00"` pushed by `ObdPacket::new` when padding. -/
def zeroTok : List Char := ['0', '0']

/-- The first `while` loop of `ObdPacket::new`:
`while parts.len() > 8 { parts.remove(0); }` (`remove(0)` is the tail; the
loop guard can only hold on a non-empty list). -/
def truncFront : List (List Char) → List (List Char)
  | [] => []
  | x :: xs => if (x :: xs).length > 8 then truncFront xs else x :: xs

/-- The second `while` loop of `ObdPacket::new`, its iteration count
`8 - parts.len()` made structural:
`while parts.len() < 8 { parts.push("00"); }`. -/
def padBackF : Nat → List (List Char) → List (List Char)
  | 0, parts => parts
  | f + 1, parts =>
    if parts.length < 8 then padBackF f (parts ++ [zeroTok]) else parts

/-- The second `while` loop of `ObdPacket::new`, entered with exactly the
number of iterations it performs. -/
def padBack (parts : List (List Char)) : List (List Char) :=
  padBackF (8 - parts.length) parts

/-- Value of a single hexadecimal digit character, as accepted by Rust's
`char::to_digit(16)` (used by `from_str_radix`). -/
def hexDigitVal (c : Char) : Option Nat :=
  if '0' ≤ c ∧ c ≤ '9' then some (c.toNat - 48)
  else if 'a' ≤ c ∧ c ≤ 'f' then some (c.toNat - 87)
  else if 'A' ≤ c ∧ c ≤ 'F' then some (c.toNat - 55)
  else none

/-- Accumulated value of a list of hex digits (most significant first);
`none` as soon as one character is not a hexadecimal digit. -/
def hexDigitsVal (ds : List Char) : Option Nat :=
  ds.foldl
    (fun acc c =>
      match acc, hexDigitVal c with
      | some a, some v => some (a * 16 + v)
      | _, _ => none)
    (some 0)

/-- Sign handling of Rust's integer parsing for an **unsigned** target type:
only an optional leading `+` is stripped.  For `u64` the `-` arm of
`from_str_radix` is guarded by `is_signed_ty` and never fires, so a leading
`-` is not a sign — it stays in place and the digit loop rejects it as an
invalid digit. -/
def splitSign : List Char → List Char
  | '+' :: ds => ds
  | ds => ds

/-- Rust's `u64::from_str_radix(s, 16)`, continued: after stripping an
optional `+`, there must be at least one character, every character must be a
hex digit (a leading `-`, left in place by `splitSign`, fails here), and the
value must fit the target type (`≥ 2 ^ 64` overflows).  All failure modes
(empty input, lone sign, invalid digit, overflow) surface as `none`, as the
caller maps them all to `Error::Conversion`. -/
def fromStrRadix16 (s : List Char) : Option Nat :=
  let digits := splitSign s
  if digits.isEmpty then none
  else
    match hexDigitsVal digits with
    | none => none
    | some v => if v < 2 ^ 64 then some v else none

namespace ObdPacket

/-- `ObdPacket::new` (`src/packet.rs`, lines 22–38): take the text before the
first `<` (`s.split('<').collect::<Vec<_>>()[0]`), split it on single spaces,
drop tokens from the front while more than 8 remain, push `"00"` tokens while
fewer than 8 remain, join the 8 tokens and parse the concatenation in base 16
as a `u64`; a failed parse becomes `Error::Conversion`. -/
def new (s : List Char) : Except Error Nat :=
  let x := (splitOnChar '<' s).headD []
  let parts := padBack (truncFront (splitOnChar ' ' x))
  match fromStrRadix16 parts.flatten with
  | some v => .ok v
  | none => .error .Conversion

/-- Message of the upper-bound violation in `ObdPacket::get`. -/
def upperMsg : List Char := ("Upper bound must be less than 64.").toList

/-- Message of the lower-bound violation in `ObdPacket::get`. -/
def lowerMsg : List Char :=
  ("Lower bound must be less than the lesser of 63 or `upper`.").toList

/-- The mask-building loop of `ObdPacket::get`:
`for i in lower..=upper { mask |= 1 << (i - lower); }` starting from
`mask = 0u64`.  `List.range' lower (upper + 1 - lower)` is the inclusive
range `lower..=upper` (for `lower ≤ upper`, the only way the loop is
reached). -/
def maskFor (lower upper : Nat) : Nat :=
  (List.range' lower (upper + 1 - lower)).foldl
    (fun m i => m ||| (1 <<< (i - lower))) 0

/-- `ObdPacket::get` (`src/packet.rs`, lines 47–63): validate the bounds,
build the contiguous mask, and return `mask & (self.packet >> lower)`. -/
def get (packet : Nat) (lower upper : Nat) : Except Error Nat :=
  if upper > 63 then .error (.Packet upperMsg)
  else if lower > 63 ∨ lower > upper then .error (.Packet lowerMsg)
  else .ok (maskFor lower upper &&& (packet >>> lower))

end ObdPacket

/-! ### Session layer (`src/lib.rs`): retry, monitor, connection establishment

The transport-level operations (`write_timeout`, `write_no_resp`, `write`,
`Serial::from_path`, the warm-up `read`s) perform I/O; their outcomes are
supplied as oracles.  Each oracle is indexed by the loop counter of the
enclosing loop, which in both retry loops takes each value at most once. -/

/-- The loop of `Elm327::write_retry` (`src/lib.rs`, lines 116–139).
`oracle n` is the outcome of the `write_timeout` call made on attempt `n`
(the Rust counter `n`, starting at 1).  The second component of the result is
the number of the attempt the loop finished on, i.e. the total number of
`write_timeout` calls made. -/
def writeRetryGo (oracle : Nat → Except Error (List Line)) (retry : Nat)
    (n : Nat) : Except Error (List Line) × Nat :=
  match oracle n with
  | .ok x => (.ok x, n)
  | .error e =>
    if e = .TimedOut then
      if h : n ≥ retry then (.error .TimedOut, n)
      else writeRetryGo oracle retry (n + 1)
    else (.error e, n)
termination_by retry - n
decreasing_by omega

/-- `Elm327::write_retry`: the loop above entered with `n = 1`. -/
def writeRetry (oracle : Nat → Except Error (List Line)) (retry : Nat) :
    Except Error (List Line) × Nat :=
  writeRetryGo oracle retry 1

/-- Observable steps of `Elm327::monitor_all`. -/
inductive MonOp where
  | cmdATMA : MonOp
  | readOp : MonOp
  | stopWrite : MonOp
deriving DecidableEq

/-- `Elm327::monitor_all` (`src/lib.rs`, lines 172–177).  `wATMA` is the
outcome of `write_no_resp("ATMA")`, `rd` the outcome of `read(on_str)`, and
`wStop` the outcome of the final `write("")`.  The Rust code is

    self.write_no_resp("ATMA").await?;
    let resp = self.read(on_str).await;
    self.write("").await?; // stop monitoring
    resp

The second component lists the operations actually performed. -/
def monitorAll (wATMA : Except Error Unit) (rd : Except Error (List Line))
    (wStop : Except Error (List Line)) :
    Except Error (List Line) × List MonOp :=
  match wATMA with
  | .error e => (.error e, [.cmdATMA])
  | .ok _ =>
    match wStop with
    | .error e => (.error e, [.cmdATMA, .readOp, .stopWrite])
    | .ok _ => (rd, [.cmdATMA, .readOp, .stopWrite])

/-- Observable steps of `Elm327::from_path`.  Timeouts are in milliseconds. -/
inductive ConnEvent where
  | openAttempt : Bool → ConnEvent
  | warmupRead : Nat → Bool → ConnEvent
  | reset : Nat → Bool → ConnEvent
deriving DecidableEq

/-- The loop of `Elm327::from_path` (`src/lib.rs`, lines 32–72), with counter
`n` (starting at 0) and `retry` the attempt ceiling.  `openOk n` is whether
`Serial::from_path` succeeds on the iteration with counter `n`; `warmOk n i`
is whether the `i`-th warm-up read of that iteration completes within its
500 ms bound (recorded in the trace but, as in the code, never inspected);
`atzOk n` is whether `write_timeout("ATZ", 3s)` succeeds.  Returns the result
(`Ok` standing for the constructed session) and the trace of events. -/
def fromPathGo (openOk : Nat → Bool) (warmOk : Nat → Nat → Bool)
    (atzOk : Nat → Bool) (retry : Nat) (n : Nat) :
    Except Error Unit × List ConnEvent :=
  if h : n ≥ retry then (.error .TimedOut, [])
  else if openOk n then
    let warm := (List.range n).map (fun i => ConnEvent.warmupRead 500 (warmOk n i))
    if atzOk n then (.ok (), .openAttempt true :: warm ++ [.reset 3000 true])
    else
      let r := fromPathGo openOk warmOk atzOk retry (n + 1)
      (r.1, .openAttempt true :: warm ++ [.reset 3000 false] ++ r.2)
  else
    let r := fromPathGo openOk warmOk atzOk retry (n + 1)
    (r.1, .openAttempt false :: r.2)
termination_by retry - n
decreasing_by all_goals omega

/-- `Elm327::from_path`: `retry.unwrap_or(3)` attempts, counter starting
at 0. -/
def fromPath (openOk : Nat → Bool) (warmOk : Nat → Nat → Bool)
    (atzOk : Nat → Bool) (retryOpt : Option Nat) :
    Except Error Unit × List ConnEvent :=
  fromPathGo openOk warmOk atzOk (retryOpt.getD 3) 0

/-! ### Spec-side definitions and scan analysis -/

/-- Modelled from the spec's words (§4.1, §8): the segments of a byte stream
delimited by carriage-return (13) or line-feed (10) bytes, keeping empty
segments.  Always returns a non-empty list whose last element is the trailing
unterminated segment. -/
def splitCRLF : List Nat → List (List Nat)
  | [] => [[]]
  | b :: bs =>
    if b = 13 ∨ b = 10 then [] :: splitCRLF bs
    else
      match splitCRLF bs with
      | [] => [[b]]
      | s :: ss => (b :: s) :: ss

/-- Modelled from the spec's words (§8, first testable property): the
non-empty, UTF-8-decodable lines among a list of byte segments, in order;
empty segments are excluded and undecodable segments dropped. -/
def surfacedOf (segs : List (List Nat)) : List Line :=
  segs.filterMap (fun seg => if seg.isEmpty then none else utf8Decode seg)

/-- Modelled from the spec's words (§8): the non-empty, UTF-8-decodable lines
observed in a prompt-free byte stream, in arrival order (the trailing
unterminated segment included, since the prompt flushes it). -/
def specLines (pre : List Nat) : List Line :=
  surfacedOf (splitCRLF pre)

/-- Analysis helper: the terminated segments produced by processing the
prompt-free byte stream from an accumulation buffer `buf`. -/
def segsTerm (buf : List Nat) : List Nat → List (List Nat)
  | [] => []
  | b :: bs =>
    if b = 13 ∨ b = 10 then buf :: segsTerm [] bs
    else segsTerm (buf ++ [b]) bs

/-- Analysis helper: the pending accumulation buffer left after processing
the prompt-free byte stream from buffer `buf`. -/
def segsPend (buf : List Nat) : List Nat → List Nat
  | [] => buf
  | b :: bs =>
    if b = 13 ∨ b = 10 then segsPend [] bs
    else segsPend (buf ++ [b]) bs

/-- Analysis helper: the lines the read loop surfaces from a list of
terminated segments — empty and undecodable segments are skipped, and the
scan stops at the first line the predicate rejects (which is still
surfaced). -/
def scanLines (p : Line → Bool) : List (List Nat) → List Line
  | [] => []
  | seg :: rest =>
    if seg.isEmpty then scanLines p rest
    else
      match utf8Decode seg with
      | none => scanLines p rest
      | some s => if p s then s :: scanLines p rest else [s]

/-- Analysis helper: whether the scan over a list of terminated segments is
still running afterwards (no surfaced line was rejected by the
predicate). -/
def scanCont (p : Line → Bool) : List (List Nat) → Bool
  | [] => true
  | seg :: rest =>
    if seg.isEmpty then scanCont p rest
    else
      match utf8Decode seg with
      | none => scanCont p rest
      | some s => if p s then scanCont p rest else false

/-- Predicate-driven early-exit over an already-surfaced list of lines: keep
lines while the predicate accepts them; the first rejected line is still
kept, and the scan ends there. -/
def takeUntilFalse (p : Line → Bool) : List Line → List Line
  | [] => []
  | s :: rest => if p s then s :: takeUntilFalse p rest else [s]

/-- Whether the predicate accepts every line of an already-surfaced list
(the scan never stops early). -/
def contAll (p : Line → Bool) : List Line → Bool
  | [] => true
  | s :: rest => if p s then contAll p rest else false

/-- The lines surfaced from the terminated segments of a prompt-free byte
stream: the predicate can stop the scan only at one of these. -/
def linesTerm (pre : List Nat) : List Line :=
  surfacedOf (segsTerm [] pre)

/-- Modelled from the spec's words (claim C3): a string is "valid
hexadecimal" when it is non-empty and every character is a hexadecimal
digit. -/
def isValidHexString (s : List Char) : Bool :=
  !s.isEmpty && s.all (fun c => (hexDigitVal c).isSome)

/-! ### Lemmas about the frame decoder -/

/-- Extending a low bitmask by its next power of two. -/
theorem two_pow_or (k : Nat) : (2 ^ k - 1) ||| 2 ^ k = 2 ^ (k + 1) - 1 := by
  apply Nat.eq_of_testBit_eq
  intro i
  simp only [Nat.testBit_or, Nat.testBit_two_pow_sub_one, Nat.testBit_two_pow]
  by_cases h1 : i < k
  · have h2 : i < k + 1 := by omega
    have h3 : ¬ (k = i) := by omega
    simp [h1, h2, h3]
  · by_cases h4 : k = i
    · have h2 : i < k + 1 := by omega
      simp [h4, h2]
    · have h2 : ¬ (i < k + 1) := by omega
      simp [h1, h2, h4]

/-- The mask loop of `ObdPacket::get`, generalized over the part of the range
already consumed. -/
theorem maskFold (n : Nat) : ∀ (k l : Nat),
    (List.range' (l + k) n).foldl (fun m i => m ||| (1 <<< (i - l)))
      (2 ^ k - 1) = 2 ^ (k + n) - 1 := by
  induction n with
  | zero => intro k l; simp
  | succ n ih =>
    intro k l
    rw [List.range'_succ]
    simp only [List.foldl_cons]
    have h1 : l + k - l = k := by omega
    rw [h1, Nat.one_shiftLeft, two_pow_or]
    have h2 : l + k + 1 = l + (k + 1) := by omega
    rw [h2, ih (k + 1) l]
    have h3 : k + 1 + n = k + (n + 1) := by omega
    rw [h3]

/-- The loop of `ObdPacket::get` builds the contiguous low bitmask of width
`upper - lower + 1`. -/
theorem maskFor_eq (l u : Nat) (h : l ≤ u) :
    ObdPacket.maskFor l u = 2 ^ (u - l + 1) - 1 := by
  have h0 : (2 : Nat) ^ 0 - 1 = 0 := by norm_num
  have := maskFold (u + 1 - l) 0 l
  rw [Nat.add_zero, h0, Nat.zero_add] at this
  rw [ObdPacket.maskFor, this]
  have h2 : u + 1 - l = u - l + 1 := by omega
  rw [h2]

/-- On valid bounds, `ObdPacket::get` returns the packet shifted right by
`lower`, reduced modulo `2 ^ (upper - lower + 1)`. -/
theorem get_ok (p l u : Nat) (hlu : l ≤ u) (hu : u ≤ 63) :
    ObdPacket.get p l u = .ok ((p >>> l) % 2 ^ (u - l + 1)) := by
  rw [ObdPacket.get, if_neg (by omega), if_neg (by omega), maskFor_eq l u hlu,
    Nat.and_comm, Nat.and_pow_two_sub_one_eq_mod]

/-- `truncFront` is `List.drop` of the length excess over 8. -/
theorem truncFront_eq_drop (l : List (List Char)) :
    truncFront l = l.drop (l.length - 8) := by
  induction l with
  | nil => simp [truncFront]
  | cons x xs ih =>
    rw [truncFront]
    by_cases h : (x :: xs).length > 8
    · rw [if_pos h, ih]
      simp only [List.length_cons]
      have h2 : xs.length + 1 - 8 = (xs.length - 8) + 1 := by
        simp only [List.length_cons] at h
        omega
      rw [h2, List.drop_succ_cons]
    · rw [if_neg h]
      simp only [List.length_cons] at h ⊢
      have h2 : xs.length + 1 - 8 = 0 := by omega
      simp [h2]

/-- `padBackF`, entered with exactly the missing token count, appends that
many `"00"` tokens. -/
theorem padBackF_eq : ∀ (f : Nat) (l : List (List Char)),
    f = 8 - l.length → padBackF f l = l ++ List.replicate f zeroTok := by
  intro f
  induction f with
  | zero => intro l _; simp [padBackF]
  | succ f ih =>
    intro l hf
    have hlen : l.length < 8 := by omega
    rw [padBackF, if_pos hlen, ih (l ++ [zeroTok]) (by simp; omega)]
    simp [List.replicate_succ]

/-- `padBack` appends the missing `"00"` tokens. -/
theorem padBack_eq (l : List (List Char)) :
    padBack l = l ++ List.replicate (8 - l.length) zeroTok := by
  rw [padBack, padBackF_eq (8 - l.length) l rfl]

/-- The token-normalization of `ObdPacket::new` always yields exactly 8
tokens. -/
theorem normalized_length (l : List (List Char)) :
    (padBack (truncFront l)).length = 8 := by
  rw [padBack_eq, truncFront_eq_drop]
  simp only [List.length_append, List.length_drop, List.length_replicate]
  omega

/-- `splitOnChar` never returns an empty list of pieces. -/
theorem splitOnChar_ne_nil (c : Char) (s : List Char) :
    splitOnChar c s ≠ [] := by
  induction s with
  | nil => simp [splitOnChar]
  | cons ch rest ih =>
    rw [splitOnChar]
    by_cases h : ch = c
    · simp [h]
    · rw [if_neg h]
      cases hsp : splitOnChar c rest with
      | nil => exact absurd hsp ih
      | cons s0 ss => simp

/-- The first piece of `s.split('<')` is the text before the first `'<'`:
the claim's "truncate the line at the first `<`". -/
theorem splitOnChar_head (c : Char) (s : List Char) :
    (splitOnChar c s).headD [] = s.takeWhile (· ≠ c) := by
  induction s with
  | nil => simp [splitOnChar]
  | cons ch rest ih =>
    rw [splitOnChar]
    by_cases h : ch = c
    · simp [h, List.takeWhile_cons]
    · rw [if_neg h]
      cases hsp : splitOnChar c rest with
      | nil => exact absurd hsp (splitOnChar_ne_nil c rest)
      | cons s0 ss =>
        rw [hsp] at ih
        simp only [List.headD_cons] at ih
        simp [List.takeWhile_cons, h, ih]

/-- Values accepted by the modelled `u64::from_str_radix` fit in 64 bits. -/
theorem fromStrRadix16_lt (s : List Char) (v : Nat)
    (h : fromStrRadix16 s = some v) : v < 2 ^ 64 := by
  rw [fromStrRadix16] at h
  by_cases hemp : (splitSign s).isEmpty
  · rw [if_pos hemp] at h
    simp at h
  · rw [if_neg hemp] at h
    cases hv : hexDigitsVal (splitSign s) with
    | none => rw [hv] at h; simp at h
    | some w =>
      rw [hv] at h
      split at h
      all_goals simp at h
      all_goals omega

/-! ### Lemmas about the response reader -/

/-- Decoding one character consumes at least the lead byte: the remainder
returned by `utf8Head` is no longer than the continuation bytes offered. -/
theorem utf8Head_length (b : Nat) (rest : List Nat) (v : Nat) (r : List Nat)
    (h : utf8Head b rest = some (v, r)) : r.length ≤ rest.length := by
  unfold utf8Head at h
  repeat' split at h
  all_goals try (simp_all; done)
  all_goals injection h with h2
  all_goals cases h2
  all_goals simp only [List.length_cons]
  all_goals omega

/-- Fuel irrelevance: any fuel of at least the byte count decodes
identically, so the fuel-exhaustion branch of `utf8DecodeF` is unreachable
from `utf8Decode`. -/
theorem utf8DecodeF_fuel : ∀ (f g : Nat) (bs : List Nat), bs.length ≤ f →
    bs.length ≤ g → utf8DecodeF f bs = utf8DecodeF g bs := by
  intro f
  induction f with
  | zero =>
    intro g bs h1 _
    have hbs : bs = [] := by
      cases bs with
      | nil => rfl
      | cons x xs => simp at h1
    subst hbs
    cases g <;> rfl
  | succ f ih =>
    intro g bs h1 h2
    cases bs with
    | nil => cases g <;> rfl
    | cons b rest =>
      cases g with
      | zero => simp at h2
      | succ g' =>
        simp only [List.length_cons] at h1 h2
        cases hstep : utf8Head b rest with
        | none => simp only [utf8DecodeF, hstep]
        | some vr =>
          obtain ⟨v, r⟩ := vr
          have hr := utf8Head_length b rest v r hstep
          simp only [utf8DecodeF, hstep]
          exact congrArg _ (ih g' r (by omega) (by omega))

/-- A non-empty byte sequence never decodes to an empty string. -/
theorem utf8Decode_cons (b : Nat) (rest : List Nat) (s : List Char)
    (h : utf8Decode (b :: rest) = some s) : s ≠ [] := by
  rw [utf8Decode] at h
  simp only [List.length_cons] at h
  cases hstep : utf8Head b rest with
  | none => simp only [utf8DecodeF, hstep] at h; simp at h
  | some vr =>
    obtain ⟨v, r⟩ := vr
    simp only [utf8DecodeF, hstep] at h
    obtain ⟨cs, hcs, rfl⟩ := Option.map_eq_some'.mp h
    simp


/-! #### One-step reductions of the read loop -/

/-- Read-loop step: terminator byte with an empty accumulation buffer —
continue scanning. -/
theorem readGo_term_nil (p : Line → Bool) (b : Nat) (bs : List Nat)
    (strs : List Line) (hterm : b = 13 ∨ b = 10) :
    readGo p (b :: bs) [] strs = readGo p bs [] strs := by
  rw [readGo, if_pos (by tauto), if_pos (by simp),
    if_neg (by rcases hterm with h | h <;> omega)]

/-- Read-loop step: prompt byte with an empty accumulation buffer —
terminate with the collected lines. -/
theorem readGo_prompt_nil (p : Line → Bool) (bs : List Nat)
    (strs : List Line) :
    readGo p (62 :: bs) [] strs = (.ok strs, []) := by
  rw [readGo, if_pos (by tauto), if_pos (by simp), if_pos rfl]

/-- Read-loop step: terminator byte over an undecodable buffer — the line is
dropped silently and scanning continues. -/
theorem readGo_term_bad (p : Line → Bool) (b : Nat) (bs buf : List Nat)
    (strs : List Line) (hterm : b = 13 ∨ b = 10) (hbuf : buf ≠ [])
    (hdec : utf8Decode buf = none) :
    readGo p (b :: bs) buf strs = readGo p bs [] strs := by
  rw [readGo, if_pos (by tauto), if_neg (by simpa [List.isEmpty_iff] using hbuf)]
  rw [hdec, if_neg (by rcases hterm with h | h <;> omega)]

/-- Read-loop step: prompt byte over an undecodable buffer — the line is
dropped and the scan terminates. -/
theorem readGo_prompt_bad (p : Line → Bool) (bs buf : List Nat)
    (strs : List Line) (hbuf : buf ≠ []) (hdec : utf8Decode buf = none) :
    readGo p (62 :: bs) buf strs = (.ok strs, []) := by
  rw [readGo, if_pos (by tauto), if_neg (by simpa [List.isEmpty_iff] using hbuf)]
  rw [hdec, if_pos rfl]

/-- Read-loop step: terminator byte over a decodable buffer whose line the
predicate accepts — surface the line and continue. -/
theorem readGo_term_good (p : Line → Bool) (b : Nat) (bs buf : List Nat)
    (strs : List Line) (s : Line) (hterm : b = 13 ∨ b = 10) (hbuf : buf ≠ [])
    (hdec : utf8Decode buf = some s) (hp : p s = true) :
    readGo p (b :: bs) buf strs =
      ((readGo p bs [] (strs ++ [s])).1,
        s :: (readGo p bs [] (strs ++ [s])).2) := by
  rw [readGo, if_pos (by tauto), if_neg (by simpa [List.isEmpty_iff] using hbuf)]
  rw [hdec]
  simp only [hp, if_true, if_neg (show ¬ b = 62 by rcases hterm with h | h <;> omega)]

/-- Read-loop step: prompt byte over a decodable buffer whose line the
predicate accepts — surface the line and terminate. -/
theorem readGo_prompt_good (p : Line → Bool) (bs buf : List Nat)
    (strs : List Line) (s : Line) (hbuf : buf ≠ [])
    (hdec : utf8Decode buf = some s) (hp : p s = true) :
    readGo p (62 :: bs) buf strs = (.ok (strs ++ [s]), [s]) := by
  rw [readGo, if_pos (by tauto), if_neg (by simpa [List.isEmpty_iff] using hbuf)]
  rw [hdec]
  simp [hp]

/-- Read-loop step: terminator or prompt byte over a decodable buffer whose
line the predicate rejects — surface the line and stop early. -/
theorem readGo_stop (p : Line → Bool) (b : Nat) (bs buf : List Nat)
    (strs : List Line) (s : Line) (hterm : b = 13 ∨ b = 10 ∨ b = 62)
    (hbuf : buf ≠ []) (hdec : utf8Decode buf = some s) (hp : p s = false) :
    readGo p (b :: bs) buf strs = (.ok (strs ++ [s]), [s]) := by
  rw [readGo, if_pos hterm, if_neg (by simpa [List.isEmpty_iff] using hbuf)]
  rw [hdec]
  simp [hp]

/-- Read-loop step: an ordinary data byte is appended to the accumulation
buffer. -/
theorem readGo_data (p : Line → Bool) (b : Nat) (bs buf : List Nat)
    (strs : List Line) (hnterm : ¬ (b = 13 ∨ b = 10 ∨ b = 62)) :
    readGo p (b :: bs) buf strs = readGo p bs (buf ++ [b]) strs := by
  rw [readGo, if_neg hnterm]

/-- With an always-true predicate, the scan surfaces every non-empty
decodable segment. -/
theorem scanLines_true (ts : List (List Nat)) :
    scanLines (fun _ => true) ts = surfacedOf ts := by
  induction ts with
  | nil => simp [scanLines, surfacedOf]
  | cons seg rest ih =>
    by_cases hemp : seg = []
    · subst hemp
      simp [scanLines, surfacedOf, List.filterMap_cons, ih]
    · have hemp' : ¬ seg.isEmpty = true := by
        simpa [List.isEmpty_iff] using hemp
      cases hdec : utf8Decode seg with
      | none =>
        simp [scanLines, surfacedOf, List.filterMap_cons, hemp, hemp', hdec, ih]
      | some s =>
        simp [scanLines, surfacedOf, List.filterMap_cons, hemp, hemp', hdec, ih]

/-- With an always-true predicate, the scan never stops early. -/
theorem scanCont_true (ts : List (List Nat)) :
    scanCont (fun _ => true) ts = true := by
  induction ts with
  | nil => simp [scanCont]
  | cons seg rest ih =>
    by_cases hemp : seg = []
    · subst hemp
      simp [scanCont, ih]
    · have hemp' : ¬ seg.isEmpty = true := by
        simpa [List.isEmpty_iff] using hemp
      cases hdec : utf8Decode seg with
      | none => simp [scanCont, hemp', hdec, ih]
      | some s => simp [scanCont, hemp', hdec, ih]

/-- `splitCRLF` never returns an empty list of segments. -/
theorem splitCRLF_ne_nil (l : List Nat) : splitCRLF l ≠ [] := by
  induction l with
  | nil => simp [splitCRLF]
  | cons b bs ih =>
    rw [splitCRLF]
    by_cases h : b = 13 ∨ b = 10
    · simp [h]
    · rw [if_neg h]
      cases hsp : splitCRLF bs with
      | nil => exact absurd hsp ih
      | cons s ss => simp

/-- Bridge between the incremental segmentation (`segsTerm`/`segsPend`) and
the spec-side segmentation `splitCRLF`: the terminated segments followed by
the pending buffer are the CR/LF-split of the stream, with the initial
accumulation buffer prepended to the first segment. -/
theorem segs_eq_splitCRLF (l : List Nat) : ∀ buf,
    segsTerm buf l ++ [segsPend buf l] =
      (buf ++ (splitCRLF l).headD []) :: (splitCRLF l).tail := by
  induction l with
  | nil => intro buf; simp [segsTerm, segsPend, splitCRLF]
  | cons b bs ih =>
    intro buf
    by_cases h : b = 13 ∨ b = 10
    · rw [segsTerm, if_pos h, segsPend, if_pos h, splitCRLF, if_pos h]
      simp only [List.cons_append, List.headD_cons, List.tail_cons,
        List.append_nil]
      have := ih []
      cases hsp : splitCRLF bs with
      | nil => exact absurd hsp (splitCRLF_ne_nil bs)
      | cons s ss =>
        rw [hsp] at this
        simp only [List.headD_cons, List.tail_cons, List.nil_append] at this
        simp [this]
    · rw [segsTerm, if_neg h, segsPend, if_neg h, splitCRLF, if_neg h,
        ih (buf ++ [b])]
      cases hsp : splitCRLF bs with
      | nil => exact absurd hsp (splitCRLF_ne_nil bs)
      | cons s ss => simp

/-- `surfacedOf` distributes over segment concatenation. -/
theorem surfacedOf_append (a b : List (List Nat)) :
    surfacedOf (a ++ b) = surfacedOf a ++ surfacedOf b := by
  simp [surfacedOf, List.filterMap_append]

/-- Master decomposition of the read loop over a prompt-free prefix `pre` of
the byte stream: the loop surfaces the lines of `pre`'s terminated segments
(with early exit if the predicate says stop), and, if still running, carries
the pending buffer into the rest of the stream. -/
theorem readGo_split (p : Line → Bool) (pre : List Nat) :
    ∀ (tail buf : List Nat) (strs : List Line), 62 ∉ pre →
    readGo p (pre ++ tail) buf strs =
      (if scanCont p (segsTerm buf pre) then
        ((readGo p tail (segsPend buf pre)
            (strs ++ scanLines p (segsTerm buf pre))).1,
          scanLines p (segsTerm buf pre) ++
            (readGo p tail (segsPend buf pre)
              (strs ++ scanLines p (segsTerm buf pre))).2)
      else (.ok (strs ++ scanLines p (segsTerm buf pre)),
            scanLines p (segsTerm buf pre))) := by
  induction pre with
  | nil =>
    intro tail buf strs _
    simp [segsTerm, segsPend, scanLines, scanCont]
  | cons b bs ih =>
    intro tail buf strs hpre
    have hb62 : b ≠ 62 := fun hEq => hpre (hEq ▸ List.mem_cons_self b bs)
    have hbs : 62 ∉ bs := fun hmem => hpre (List.mem_cons_of_mem _ hmem)
    by_cases hterm : b = 13 ∨ b = 10
    · rw [segsTerm, if_pos hterm, segsPend, if_pos hterm]
      by_cases hbuf : buf = []
      · subst hbuf
        rw [List.cons_append, readGo_term_nil p b _ strs hterm,
          ih tail [] strs hbs]
        have hsc : scanCont p ([] :: segsTerm [] bs) =
            scanCont p (segsTerm [] bs) := by
          rw [scanCont]; simp
        have hsl : scanLines p ([] :: segsTerm [] bs) =
            scanLines p (segsTerm [] bs) := by
          rw [scanLines]; simp
        rw [hsc, hsl]
      · cases hdec : utf8Decode buf with
        | none =>
          rw [List.cons_append, readGo_term_bad p b _ buf strs hterm hbuf hdec,
            ih tail [] strs hbs]
          have hsc : scanCont p (buf :: segsTerm [] bs) =
              scanCont p (segsTerm [] bs) := by
            rw [scanCont, if_neg (by simpa [List.isEmpty_iff] using hbuf), hdec]
          have hsl : scanLines p (buf :: segsTerm [] bs) =
              scanLines p (segsTerm [] bs) := by
            rw [scanLines, if_neg (by simpa [List.isEmpty_iff] using hbuf), hdec]
          rw [hsc, hsl]
        | some s =>
          by_cases hp : p s
          · rw [List.cons_append,
              readGo_term_good p b _ buf strs s hterm hbuf hdec hp,
              ih tail [] (strs ++ [s]) hbs]
            have hsc : scanCont p (buf :: segsTerm [] bs) =
                scanCont p (segsTerm [] bs) := by
              rw [scanCont, if_neg (by simpa [List.isEmpty_iff] using hbuf),
                hdec]
              simp [hp]
            have hsl : scanLines p (buf :: segsTerm [] bs) =
                s :: scanLines p (segsTerm [] bs) := by
              rw [scanLines, if_neg (by simpa [List.isEmpty_iff] using hbuf),
                hdec]
              simp [hp]
            rw [hsc, hsl]
            by_cases hc : scanCont p (segsTerm [] bs)
            · simp [hc, List.append_assoc]
            · simp [hc, List.append_assoc]
          · have hp' : p s = false := by
              cases hpv : p s
              · rfl
              · exact absurd hpv hp
            rw [List.cons_append,
              readGo_stop p b _ buf strs s (by tauto) hbuf hdec hp']
            have hsc : scanCont p (buf :: segsTerm [] bs) = false := by
              rw [scanCont, if_neg (by simpa [List.isEmpty_iff] using hbuf),
                hdec]
              simp [hp']
            have hsl : scanLines p (buf :: segsTerm [] bs) = [s] := by
              rw [scanLines, if_neg (by simpa [List.isEmpty_iff] using hbuf),
                hdec]
              simp [hp']
            rw [hsc, hsl]
            simp
    · have hnterm : ¬ (b = 13 ∨ b = 10 ∨ b = 62) := by tauto
      rw [List.cons_append, readGo_data p b _ buf strs hnterm,
        ih tail (buf ++ [b]) strs hbs, segsTerm, if_neg hterm, segsPend,
        if_neg hterm]

/-- The spec-side lines of a prompt-free stream split into the lines of its
terminated segments followed by the (at most one) line of its pending
segment. -/
theorem specLines_eq (pre : List Nat) :
    specLines pre =
      surfacedOf (segsTerm [] pre) ++ surfacedOf [segsPend [] pre] := by
  rw [specLines, ← surfacedOf_append, segs_eq_splitCRLF pre []]
  cases hsp : splitCRLF pre with
  | nil => exact absurd hsp (splitCRLF_ne_nil pre)
  | cons s ss => simp [hsp]

/-- The surfaced lines and the continue-flag of a segment scan depend only on
the surfaced line list of the segments. -/
theorem scan_eq_surfaced (p : Line → Bool) (ts : List (List Nat)) :
    scanLines p ts = takeUntilFalse p (surfacedOf ts) ∧
      scanCont p ts = contAll p (surfacedOf ts) := by
  induction ts with
  | nil => simp [scanLines, scanCont, surfacedOf, takeUntilFalse, contAll]
  | cons seg rest ih =>
    by_cases hemp : seg = []
    · subst hemp
      simpa [scanLines, scanCont, surfacedOf, List.filterMap_cons] using ih
    · have hemp' : ¬ seg.isEmpty = true := by
        simpa [List.isEmpty_iff] using hemp
      cases hdec : utf8Decode seg with
      | none =>
        simpa [scanLines, scanCont, surfacedOf, List.filterMap_cons, hemp',
          hdec] using ih
      | some s =>
        have hF : surfacedOf (seg :: rest) = s :: surfacedOf rest := by
          simp [surfacedOf, List.filterMap_cons, hemp, hemp', hdec]
        rw [hF, scanLines, scanCont, if_neg hemp', if_neg hemp', hdec,
          takeUntilFalse, contAll]
        by_cases hp : p s
        · simp [hp, ih.1, ih.2]
        · simp [hp]

/-- If the predicate accepts the first `k - 1` lines and rejects the `k`-th,
the early-exit scan returns exactly the first `k` lines and stops. -/
theorem takeUntilFalse_early (p : Line → Bool) :
    ∀ (L : List Line) (k : Nat), 1 ≤ k → ∀ (hk : k - 1 < L.length),
    (∀ l ∈ L.take (k - 1), p l = true) →
    p (L.get ⟨k - 1, hk⟩) = false →
    takeUntilFalse p L = L.take k ∧ contAll p L = false := by
  intro L
  induction L with
  | nil => intro k _ hk _ _; simp at hk
  | cons s L' ih =>
    intro k hk1 hk htrue hfalse
    by_cases hk1' : k = 1
    · subst hk1'
      simp only [Nat.sub_self, List.get] at hfalse
      rw [takeUntilFalse, contAll, if_neg (by simp [hfalse]),
        if_neg (by simp [hfalse])]
      simp
    · have hk2 : 2 ≤ k := by omega
      have hps : p s = true := by
        apply htrue
        have h1 : L'.length + 1 - 1 = L'.length := by omega
        have : k - 1 = (k - 2) + 1 := by omega
        rw [this, List.take_succ_cons]
        exact List.mem_cons_self s _
      have hk' : (k - 1) - 1 < L'.length := by
        simp only [List.length_cons] at hk
        omega
      have htrue' : ∀ l ∈ L'.take ((k - 1) - 1), p l = true := by
        intro l hl
        apply htrue
        have : k - 1 = ((k - 1) - 1) + 1 := by omega
        rw [this, List.take_succ_cons]
        exact List.mem_cons_of_mem s hl
      have hfalse' : p (L'.get ⟨(k - 1) - 1, hk'⟩) = false := by
        have heq : (⟨k - 1, hk⟩ : Fin (s :: L').length) =
            ⟨((k - 1) - 1) + 1, by simp; omega⟩ := by
          apply Fin.ext
          simp
          omega
        rw [heq] at hfalse
        simpa using hfalse
      obtain ⟨ht, hc⟩ := ih (k - 1) (by omega) hk' htrue' hfalse'
      constructor
      · rw [takeUntilFalse, if_pos hps, ht]
        have h3 : k = (k - 1) + 1 := by omega
        rw [h3, List.take_succ_cons]
        have h4 : k - 1 + 1 - 1 = k - 1 := by omega
        rw [h4]
      · rw [contAll, if_pos hps, hc]

/-- Invariant of the read loop: starting from a result vector of non-empty
lines, every line the callback is invoked on and every line of a successful
result is non-empty (the loop flushes only non-empty buffers, and decoding a
non-empty buffer yields a non-empty line). -/
theorem readGo_ne_nil (p : Line → Bool) (bytes : List Nat) :
    ∀ (buf : List Nat) (strs : List Line), (∀ l ∈ strs, l ≠ []) →
    (∀ l ∈ (readGo p bytes buf strs).2, l ≠ []) ∧
    (∀ ls, (readGo p bytes buf strs).1 = .ok ls → ∀ l ∈ ls, l ≠ []) := by
  induction bytes with
  | nil =>
    intro buf strs _
    constructor
    · intro l hl
      simp [readGo] at hl
    · intro ls hls
      simp [readGo] at hls
  | cons b bs ih =>
    intro buf strs hstrs
    by_cases hterm : b = 13 ∨ b = 10 ∨ b = 62
    · by_cases hbuf : buf = []
      · subst hbuf
        by_cases hb : b = 62
        · subst hb
          rw [readGo_prompt_nil]
          refine ⟨by simp, ?_⟩
          intro ls hls
          obtain rfl : strs = ls := by simpa using hls
          exact hstrs
        · have hterm' : b = 13 ∨ b = 10 := by tauto
          rw [readGo_term_nil p b bs strs hterm']
          exact ih [] strs hstrs
      · cases hdec : utf8Decode buf with
        | none =>
          by_cases hb : b = 62
          · subst hb
            rw [readGo_prompt_bad p bs buf strs hbuf hdec]
            refine ⟨by simp, ?_⟩
            intro ls hls
            obtain rfl : strs = ls := by simpa using hls
            exact hstrs
          · have hterm' : b = 13 ∨ b = 10 := by tauto
            rw [readGo_term_bad p b bs buf strs hterm' hbuf hdec]
            exact ih [] strs hstrs
        | some s =>
          have hs : s ≠ [] := by
            cases buf with
            | nil => exact absurd rfl hbuf
            | cons x xs => exact utf8Decode_cons x xs s hdec
          have hstrs' : ∀ l ∈ strs ++ [s], l ≠ [] := by
            intro l hl
            rcases List.mem_append.mp hl with h | h
            · exact hstrs l h
            · simpa using (by simpa using h : l = s) ▸ hs
          by_cases hp : p s
          · by_cases hb : b = 62
            · subst hb
              rw [readGo_prompt_good p bs buf strs s hbuf hdec hp]
              refine ⟨?_, ?_⟩
              · intro l hl
                obtain rfl : l = s := by simpa using hl
                exact hs
              · intro ls hls
                obtain rfl : strs ++ [s] = ls := by simpa using hls
                exact hstrs'
            · have hterm' : b = 13 ∨ b = 10 := by tauto
              rw [readGo_term_good p b bs buf strs s hterm' hbuf hdec hp]
              obtain ⟨ih1, ih2⟩ := ih [] (strs ++ [s]) hstrs'
              refine ⟨?_, ih2⟩
              intro l hl
              rcases List.mem_cons.mp hl with h | h
              · exact h ▸ hs
              · exact ih1 l h
          · have hp' : p s = false := by
              cases hpv : p s
              · rfl
              · exact absurd hpv hp
            rw [readGo_stop p b bs buf strs s hterm hbuf hdec hp']
            refine ⟨?_, ?_⟩
            · intro l hl
              obtain rfl : l = s := by simpa using hl
              exact hs
            · intro ls hls
              obtain rfl : strs ++ [s] = ls := by simpa using hls
              exact hstrs'
    · rw [readGo_data p b bs buf strs hterm]
      exact ih (buf ++ [b]) strs hstrs

/-! #### One-step reductions of the session loops -/

/-- Retry-loop step: a successful attempt returns immediately. -/
theorem writeRetryGo_ok (oracle : Nat → Except Error (List Line))
    (retry n : Nat) (x : List Line) (h : oracle n = .ok x) :
    writeRetryGo oracle retry n = (.ok x, n) := by
  rw [writeRetryGo, h]

/-- Retry-loop step: a timed-out attempt below the ceiling retries. -/
theorem writeRetryGo_timeout_lt (oracle : Nat → Except Error (List Line))
    (retry n : Nat) (h : oracle n = .error .TimedOut) (hlt : n < retry) :
    writeRetryGo oracle retry n = writeRetryGo oracle retry (n + 1) := by
  rw [writeRetryGo, h]
  simp only [if_pos rfl]
  rw [dif_neg (by omega)]
  simp

/-- Retry-loop step: a timed-out attempt at the ceiling fails permanently. -/
theorem writeRetryGo_timeout_ge (oracle : Nat → Except Error (List Line))
    (retry n : Nat) (h : oracle n = .error .TimedOut) (hge : retry ≤ n) :
    writeRetryGo oracle retry n = (.error .TimedOut, n) := by
  rw [writeRetryGo, h]
  simp only [if_pos rfl]
  rw [dif_pos (by omega)]
  simp

/-- Retry-loop step: a non-timeout error aborts immediately. -/
theorem writeRetryGo_err (oracle : Nat → Except Error (List Line))
    (retry n : Nat) (e : Error) (h : oracle n = .error e)
    (hne : e ≠ .TimedOut) :
    writeRetryGo oracle retry n = (.error e, n) := by
  rw [writeRetryGo, h]
  simp only [if_neg hne]

/-- Connect-loop step: ceiling reached — fail with `TimedOut`. -/
theorem fromPathGo_stop (o : Nat → Bool) (w : Nat → Nat → Bool)
    (a : Nat → Bool) (retry n : Nat) (hge : retry ≤ n) :
    fromPathGo o w a retry n = (.error .TimedOut, []) := by
  rw [fromPathGo, dif_pos (by omega)]

/-- Connect-loop step: opening the port fails — count the attempt and
retry. -/
theorem fromPathGo_openfail (o : Nat → Bool) (w : Nat → Nat → Bool)
    (a : Nat → Bool) (retry n : Nat) (hlt : n < retry) (ho : o n = false) :
    fromPathGo o w a retry n = ((fromPathGo o w a retry (n + 1)).1,
      .openAttempt false :: (fromPathGo o w a retry (n + 1)).2) := by
  rw [fromPathGo, dif_neg (by omega), ho]
  simp

/-- Connect-loop step: open succeeds and the reset command succeeds — the
session is returned after `n` warm-up reads. -/
theorem fromPathGo_open_atzok (o : Nat → Bool) (w : Nat → Nat → Bool)
    (a : Nat → Bool) (retry n : Nat) (hlt : n < retry) (ho : o n = true)
    (ha : a n = true) :
    fromPathGo o w a retry n = (.ok (), .openAttempt true ::
      (List.range n).map (fun i => ConnEvent.warmupRead 500 (w n i)) ++
        [.reset 3000 true]) := by
  rw [fromPathGo, dif_neg (by omega), ho]
  simp [ha]

/-- Connect-loop step: open succeeds but the reset command fails — count the
attempt and retry. -/
theorem fromPathGo_open_atzfail (o : Nat → Bool) (w : Nat → Nat → Bool)
    (a : Nat → Bool) (retry n : Nat) (hlt : n < retry) (ho : o n = true)
    (ha : a n = false) :
    fromPathGo o w a retry n = ((fromPathGo o w a retry (n + 1)).1,
      .openAttempt true ::
        (List.range n).map (fun i => ConnEvent.warmupRead 500 (w n i)) ++
          [.reset 3000 false] ++ (fromPathGo o w a retry (n + 1)).2) := by
  rw [fromPathGo, dif_neg (by omega), ho]
  simp [ha]

/-- The connect loop's result does not depend on the outcomes of the warm-up
reads: they are discarded regardless of success or failure. -/
theorem fromPathGo_warm_irrel (o : Nat → Bool) (w w2 : Nat → Nat → Bool)
    (a : Nat → Bool) : ∀ (m retry n : Nat), retry - n ≤ m →
    (fromPathGo o w a retry n).1 = (fromPathGo o w2 a retry n).1 := by
  intro m
  induction m with
  | zero =>
    intro retry n h
    rw [fromPathGo_stop o w a retry n (by omega),
      fromPathGo_stop o w2 a retry n (by omega)]
  | succ m ih =>
    intro retry n h
    by_cases hge : retry ≤ n
    · rw [fromPathGo_stop o w a retry n hge, fromPathGo_stop o w2 a retry n hge]
    · have hlt : n < retry := by omega
      cases ho : o n with
      | false =>
        rw [fromPathGo_openfail o w a retry n hlt ho,
          fromPathGo_openfail o w2 a retry n hlt ho]
        simpa using ih retry (n + 1) (by omega)
      | true =>
        cases ha : a n with
        | false =>
          rw [fromPathGo_open_atzfail o w a retry n hlt ho ha,
            fromPathGo_open_atzfail o w2 a retry n hlt ho ha]
          simpa using ih retry (n + 1) (by omega)
        | true =>
          rw [fromPathGo_open_atzok o w a retry n hlt ho ha,
            fromPathGo_open_atzok o w2 a retry n hlt ho ha]

/-! ### Claims -/

/-- C1: for every byte stream terminated by a prompt byte `>` (the stream
being prompt-free before it) and an always-true predicate, `read` returns
exactly the non-empty, UTF-8-decodable lines observed before the marker, in
arrival order; empty (marker-only) segments are excluded, and lines that are
not valid UTF-8 are dropped silently — not appended to the result, and (as
the instrumentation trace shows, being equal to the result) the predicate is
not invoked on them either. -/
theorem claim_C1 (pre tail : List Nat) (hpre : 62 ∉ pre) :
    read (fun _ => true) (pre ++ 62 :: tail) =
      (.ok (specLines pre), specLines pre) := by
  rw [read, readGo_split (fun _ => true) pre (62 :: tail) [] [] hpre]
  rw [scanCont_true, scanLines_true, if_pos rfl]
  simp only [List.nil_append]
  rw [specLines_eq]
  by_cases hpend : segsPend [] pre = []
  · rw [hpend, readGo_prompt_nil]
    simp [surfacedOf]
  · cases hdec : utf8Decode (segsPend [] pre) with
    | none =>
      rw [readGo_prompt_bad _ _ _ _ hpend hdec]
      have hsur : surfacedOf [segsPend [] pre] = [] := by
        simp [surfacedOf, List.filterMap_cons, hpend, hdec,
          List.isEmpty_iff]
      rw [hsur]
      simp
    | some s =>
      rw [readGo_prompt_good _ _ _ _ s hpend hdec rfl]
      have hsur : surfacedOf [segsPend [] pre] = [s] := by
        simp [surfacedOf, List.filterMap_cons, hpend, hdec,
          List.isEmpty_iff]
      rw [hsur]

/-- Witness for C1 at a concrete stream: two terminated lines `AB` and `C`
pending at the prompt, one empty segment, and one invalid-UTF-8 segment
(lone byte 200), followed by prompt and junk. -/
theorem claim_C1_witness :
    62 ∉ ([65, 66, 13, 13, 200, 13, 67] : List Nat) ∧
    read (fun _ => true) (([65, 66, 13, 13, 200, 13, 67] : List Nat) ++
        62 :: [99]) =
      (.ok (specLines [65, 66, 13, 13, 200, 13, 67]),
        specLines [65, 66, 13, 13, 200, 13, 67]) ∧
    specLines [65, 66, 13, 13, 200, 13, 67] = [['A', 'B'], ['C']] :=
  ⟨by decide, claim_C1 [65, 66, 13, 13, 200, 13, 67] [99] (by decide),
    by decide⟩

/-- C7: if the predicate accepts the first `k - 1` surfaced lines and rejects
the `k`-th (all surfaced from terminated segments of a prompt-free prefix),
`read` returns exactly the first `k` lines and stops scanning there — the
result holds for every continuation of the stream, including the empty one,
so no prompt marker is consumed or required. -/
theorem claim_C7 (p : Line → Bool) (pre : List Nat) (k : Nat)
    (hpre : 62 ∉ pre) (hk1 : 1 ≤ k) (hk : k - 1 < (linesTerm pre).length)
    (htrue : ∀ l ∈ (linesTerm pre).take (k - 1), p l = true)
    (hfalse : p ((linesTerm pre).get ⟨k - 1, hk⟩) = false) :
    ∀ tail : List Nat, read p (pre ++ tail) =
      (.ok ((linesTerm pre).take k), (linesTerm pre).take k) := by
  intro tail
  rw [read, readGo_split p pre tail [] [] hpre]
  obtain ⟨hsl, hsc⟩ := scan_eq_surfaced p (segsTerm [] pre)
  obtain ⟨ht, hc⟩ :=
    takeUntilFalse_early p (linesTerm pre) k hk1 hk htrue hfalse
  rw [hsc, hsl]
  rw [show surfacedOf (segsTerm [] pre) = linesTerm pre from rfl, ht, hc,
    if_neg (by simp)]
  simp

/-- Witness for C7 at a concrete stream `A\rB\r` with a predicate accepting
only the line `A`: the read returns the first two lines and needs no
prompt. -/
theorem claim_C7_witness :
    read (fun l => l == ['A']) (([65, 13, 66, 13] : List Nat) ++ []) =
      (.ok ((linesTerm [65, 13, 66, 13]).take 2),
        (linesTerm [65, 13, 66, 13]).take 2) ∧
    (linesTerm [65, 13, 66, 13]).take 2 = [['A'], ['B']] :=
  ⟨claim_C7 (fun l => l == ['A']) [65, 13, 66, 13] 2 (by decide) (by decide)
      (by decide) (by decide) (by decide) [],
    by decide⟩

/-- Counterexample to C8 as stated: the byte stream space, CR, prompt makes
`read` surface the line `" "` — a line consisting solely of whitespace — and
invoke the predicate on it, because the space byte is not a line terminator
and the buffer `[32]` is non-empty and decodable. -/
theorem claim_C8_counterexample :
    (read (fun _ => true) [32, 13, 62]).1 = .ok [[' ']] ∧
    [' '] ∈ (read (fun _ => true) [32, 13, 62]).2 ∧
    ([' '].all Char.isWhitespace) = true := by
  decide

/-- C8 (amended): for every input byte stream and predicate, an **empty**
line never appears in any line sequence returned by `read`, and the
predicate is never invoked on an empty line.  (CR, LF and `>` bytes never
enter the accumulation buffer, so a surfaced line cannot consist of newline
characters; but a line of other whitespace such as spaces is surfaced
normally, per the counterexample.) -/
theorem claim_C8 (p : Line → Bool) (bytes : List Nat) :
    [] ∉ (read p bytes).2 ∧
    (∀ ls, (read p bytes).1 = .ok ls → [] ∉ ls) := by
  rw [read]
  obtain ⟨h1, h2⟩ := readGo_ne_nil p bytes [] [] (by simp)
  constructor
  · intro hmem
    exact h1 [] hmem rfl
  · intro ls hls hmem
    exact h2 ls hls [] hmem rfl

/-- Witness for C8 at the counterexample stream: the surfaced space-line is
non-empty, and the returned sequence contains no empty line. -/
theorem claim_C8_witness :
    [] ∉ (read (fun _ => true) [32, 13, 62]).2 ∧
    ((read (fun _ => true) [32, 13, 62]).1 = .ok [[' ']] → [] ∉ [[' ']]) :=
  ⟨(claim_C8 (fun _ => true) [32, 13, 62]).1,
    fun h => (claim_C8 (fun _ => true) [32, 13, 62]).2 [[' ']] h⟩

/-- C2: `get(lower, upper)` fails exactly when `upper > 63`, `lower > 63` or
`lower > upper`; the two validation checks carry distinct descriptive Packet
messages; otherwise it returns the packet right-shifted by `lower`, masked to
the low `upper - lower + 1` bits.  In particular, on the packet
`0x00000000410C1AF8`, `get 0 7 = 0xF8`, `get 8 15 = 0x1A`, and `get 5 2` and
`get 0 64` fail with the respective bounds errors. -/
theorem claim_C2 (p l u : Nat) :
    ((∃ e, ObdPacket.get p l u = .error e) ↔ (63 < u ∨ 63 < l ∨ u < l)) ∧
    (63 < u → ObdPacket.get p l u = .error (.Packet ObdPacket.upperMsg)) ∧
    (u ≤ 63 → (63 < l ∨ u < l) →
      ObdPacket.get p l u = .error (.Packet ObdPacket.lowerMsg)) ∧
    ObdPacket.upperMsg ≠ ObdPacket.lowerMsg ∧
    (l ≤ u → u ≤ 63 →
      ObdPacket.get p l u = .ok ((p >>> l) % 2 ^ (u - l + 1))) ∧
    ObdPacket.get 0x410C1AF8 0 7 = .ok 0xF8 ∧
    ObdPacket.get 0x410C1AF8 8 15 = .ok 0x1A ∧
    ObdPacket.get 0x410C1AF8 5 2 = .error (.Packet ObdPacket.lowerMsg) ∧
    ObdPacket.get 0x410C1AF8 0 64 = .error (.Packet ObdPacket.upperMsg) := by
  refine ⟨⟨?_, ?_⟩, ?_, ?_, by decide, ?_, by decide, by decide, by decide,
    by decide⟩
  · rintro ⟨e, he⟩
    by_contra hcon
    push_neg at hcon
    rw [get_ok p l u (by omega) (by omega)] at he
    simp at he
  · intro hviol
    by_cases hu : u > 63
    · exact ⟨_, by rw [ObdPacket.get, if_pos hu]⟩
    · have hl : l > 63 ∨ l > u := by omega
      exact ⟨_, by rw [ObdPacket.get, if_neg hu, if_pos hl]⟩
  · intro hu
    rw [ObdPacket.get, if_pos hu]
  · intro hu hl
    rw [ObdPacket.get, if_neg (by omega), if_pos (by omega)]
  · intro hlu hu
    exact get_ok p l u hlu hu

/-- Witness for C2: the success formula evaluated at the example packet and
bit range 0–7, and the upper-bound failure at `upper = 64`. -/
theorem claim_C2_witness :
    ObdPacket.get 0x410C1AF8 0 7 = .ok ((0x410C1AF8 >>> 0) % 2 ^ (7 - 0 + 1)) ∧
    ObdPacket.get 0x410C1AF8 0 64 = .error (.Packet ObdPacket.upperMsg) :=
  ⟨(claim_C2 0x410C1AF8 0 7).2.2.2.2.1 (by decide) (by decide),
    (claim_C2 0x410C1AF8 0 64).2.1 (by decide)⟩

/-- C10: `get` is total — for every packet and every pair of bounds it
returns either `Ok` or `Err`; after successful validation every shift amount
`i - lower` used by the mask loop is at most 63 (so no `u64` shift
overflows), the resulting mask fits in 64 bits, and the returned value of a
64-bit packet fits in 64 bits. -/
theorem claim_C10 (p l u : Nat) :
    ((∃ v, ObdPacket.get p l u = .ok v) ∨
      (∃ e, ObdPacket.get p l u = .error e)) ∧
    (u ≤ 63 → l ≤ u →
      (∀ i ∈ List.range' l (u + 1 - l), i - l ≤ 63 ∧ 1 <<< (i - l) < 2 ^ 64) ∧
      ObdPacket.maskFor l u < 2 ^ 64) ∧
    (p < 2 ^ 64 → ∀ v, ObdPacket.get p l u = .ok v → v < 2 ^ 64) := by
  refine ⟨?_, ?_, ?_⟩
  · by_cases hu : u > 63
    · exact .inr ⟨_, by rw [ObdPacket.get, if_pos hu]⟩
    · by_cases hl : l > 63 ∨ l > u
      · exact .inr ⟨_, by rw [ObdPacket.get, if_neg hu, if_pos hl]⟩
      · exact .inl ⟨_, by rw [ObdPacket.get, if_neg hu, if_neg hl]⟩
  · intro hu hlu
    constructor
    · intro i hi
      rw [List.mem_range'_1] at hi
      have hi63 : i - l ≤ 63 := by omega
      refine ⟨hi63, ?_⟩
      rw [Nat.one_shiftLeft]
      have := Nat.pow_lt_pow_right (show 1 < 2 by norm_num)
        (show i - l < 64 by omega)
      omega
    · rw [maskFor_eq l u hlu]
      have h1 : u - l + 1 ≤ 64 := by omega
      have h2 := Nat.pow_le_pow_right (show 0 < 2 by norm_num) h1
      have h3 : 0 < 2 ^ (u - l + 1) := Nat.pos_pow_of_pos _ (by norm_num)
      omega
  · intro hp v hv
    by_cases hu : u > 63
    · rw [ObdPacket.get, if_pos hu] at hv
      simp at hv
    · by_cases hl : l > 63 ∨ l > u
      · rw [ObdPacket.get, if_neg hu, if_pos hl] at hv
        simp at hv
      · have hlu : l ≤ u := by omega
        rw [get_ok p l u hlu (by omega)] at hv
        obtain rfl : (p >>> l) % 2 ^ (u - l + 1) = v := by simpa using hv
        have hle : (p >>> l) % 2 ^ (u - l + 1) ≤ p := by
          calc (p >>> l) % 2 ^ (u - l + 1) ≤ p >>> l := Nat.mod_le _ _
            _ = p / 2 ^ l := Nat.shiftRight_eq_div_pow p l
            _ ≤ p := Nat.div_le_self _ _
        omega

/-- Witness for C10: the mask of the 0–7 range fits in 64 bits, and the value
returned for a small packet is below `2 ^ 64`. -/
theorem claim_C10_witness :
    ObdPacket.maskFor 0 7 < 2 ^ 64 ∧
    (5 >>> 1) % 2 ^ (8 - 1 + 1) < 2 ^ 64 :=
  ⟨((claim_C10 0 0 7).2.1 (by decide) (by decide)).2,
    (claim_C10 5 1 8).2.2 (by decide) ((5 >>> 1) % 2 ^ (8 - 1 + 1))
      (get_ok 5 1 8 (by decide) (by decide))⟩

/-- Counterexample to C3 as stated: a line of seventeen `F` characters
normalizes to a concatenation that **is** valid hexadecimal (non-empty, all
hex digits), yet `parse` fails with a Conversion error, because the value
exceeds 64 bits — so "fails exactly when the concatenation is not valid
hexadecimal" is false. -/
theorem claim_C3_counterexample :
    ObdPacket.new (List.replicate 17 'F') = .error .Conversion ∧
    isValidHexString
      ((padBack (truncFront (splitOnChar ' '
        ((splitOnChar '<' (List.replicate 17 'F')).headD [])))).flatten) =
      true := by
  decide

/-- C3 (amended): `parse` truncates the line at the first `<`, splits on
single spaces, drops tokens from the front while more than 8 remain, appends
`"00"` tokens while fewer than 8 remain, and parses the concatenation of the
resulting exactly-8 tokens as a base-16 unsigned 64-bit integer; it fails
with a Conversion error exactly when that 64-bit base-16 parse fails (no
digits, an invalid digit, or a value not representable in 64 bits — the last
case making the original "exactly when not valid hexadecimal" too strong).
Any successfully parsed value fits in 64 bits. -/
theorem claim_C3 (s : List Char) :
    (padBack (truncFront (splitOnChar ' '
      ((splitOnChar '<' s).headD [])))).length = 8 ∧
    (splitOnChar '<' s).headD [] = s.takeWhile (fun c => c ≠ '<') ∧
    truncFront (splitOnChar ' ' ((splitOnChar '<' s).headD [])) =
      (splitOnChar ' ' ((splitOnChar '<' s).headD [])).drop
        ((splitOnChar ' ' ((splitOnChar '<' s).headD [])).length - 8) ∧
    padBack (truncFront (splitOnChar ' ' ((splitOnChar '<' s).headD []))) =
      truncFront (splitOnChar ' ' ((splitOnChar '<' s).headD [])) ++
        List.replicate
          (8 - (truncFront (splitOnChar ' '
            ((splitOnChar '<' s).headD []))).length) zeroTok ∧
    (ObdPacket.new s = .error .Conversion ↔
      fromStrRadix16 ((padBack (truncFront (splitOnChar ' '
        ((splitOnChar '<' s).headD [])))).flatten) = none) ∧
    (∀ v, ObdPacket.new s = .ok v ↔
      fromStrRadix16 ((padBack (truncFront (splitOnChar ' '
        ((splitOnChar '<' s).headD [])))).flatten) = some v) ∧
    (∀ v, ObdPacket.new s = .ok v → v < 2 ^ 64) := by
  refine ⟨normalized_length _, splitOnChar_head '<' s, truncFront_eq_drop _,
    padBack_eq _, ?_, ?_, ?_⟩
  · rw [ObdPacket.new]
    cases hfr : fromStrRadix16 ((padBack (truncFront (splitOnChar ' '
        ((splitOnChar '<' s).headD [])))).flatten) with
    | none => simp [hfr]
    | some v => simp [hfr]
  · intro v
    rw [ObdPacket.new]
    cases hfr : fromStrRadix16 ((padBack (truncFront (splitOnChar ' '
        ((splitOnChar '<' s).headD [])))).flatten) with
    | none => simp [hfr]
    | some w => simp [hfr]
  · intro v hv
    rw [ObdPacket.new] at hv
    cases hfr : fromStrRadix16 ((padBack (truncFront (splitOnChar ' '
        ((splitOnChar '<' s).headD [])))).flatten) with
    | none => rw [hfr] at hv; simp at hv
    | some w =>
      rw [hfr] at hv
      obtain rfl : w = v := by simpa using hv
      exact fromStrRadix16_lt _ w hfr

/-- Witness for C3 at the example line without an annotation: the
normalization yields 8 tokens and the successful parse round-trips through
the base-16 parser. -/
theorem claim_C3_witness :
    (padBack (truncFront (splitOnChar ' '
      ((splitOnChar '<' ("41 0C 1A F8".toList)).headD [])))).length = 8 ∧
    (ObdPacket.new ("41 0C 1A F8".toList) = .ok 0x410C1AF800000000 →
      fromStrRadix16 ((padBack (truncFront (splitOnChar ' '
        ((splitOnChar '<' ("41 0C 1A F8".toList)).headD [])))).flatten) =
        some 0x410C1AF800000000) :=
  ⟨(claim_C3 ("41 0C 1A F8".toList)).1,
    fun h => ((claim_C3 ("41 0C 1A F8".toList)).2.2.2.2.2.1
      0x410C1AF800000000).mp h⟩

/-- Counterexample to C4 as stated: `parse "41 0C 1A F8 <comment"` does not
return `0x00000000410C1AF8`; it returns `0x410C1AF8000000`, because the text
before `<` carries a trailing space (producing a fifth, empty token) and the
`"00"` padding is appended at the end, left-shifting the data. -/
theorem claim_C4_counterexample :
    ObdPacket.new ("41 0C 1A F8 <comment".toList) ≠ .ok 0x00000000410C1AF8 ∧
    ObdPacket.new ("41 0C 1A F8 <comment".toList) = .ok 0x410C1AF8000000 := by
  decide

/-- C4 (amended): `parse` applied to `"41 0C 1A F8 <comment"` succeeds and
ignores `<comment`; the text before `<` is `"41 0C 1A F8 "` (trailing space
included), whose space-split is `["41","0C","1A","F8",""]`; back-padding with
three `"00"` tokens gives 8 tokens whose concatenation `"410C1AF8000000"`
parses to the packet value `0x410C1AF8000000`. -/
theorem claim_C4 :
    (splitOnChar '<' ("41 0C 1A F8 <comment".toList)).headD [] =
      "41 0C 1A F8 ".toList ∧
    splitOnChar ' ' ("41 0C 1A F8 ".toList) =
      ["41".toList, "0C".toList, "1A".toList, "F8".toList, []] ∧
    padBack (truncFront (splitOnChar ' ' ("41 0C 1A F8 ".toList))) =
      ["41".toList, "0C".toList, "1A".toList, "F8".toList, [],
        zeroTok, zeroTok, zeroTok] ∧
    (padBack (truncFront (splitOnChar ' ' ("41 0C 1A F8 ".toList)))).flatten =
      "410C1AF8000000".toList ∧
    ObdPacket.new ("41 0C 1A F8 <comment".toList) = .ok 0x410C1AF8000000 := by
  decide

/-- Counterexample to C5 as stated: on a trace where the monitor command and
the read both succeed but the final empty stop-write fails, `monitor_all`
returns the stop-write's error instead of the original read's result — so
"finally propagates the original read's result or error" is false when the
stop command itself fails, because the Rust code applies the `?` operator to
`self.write("")`. -/
theorem claim_C5_counterexample :
    (monitorAll (.ok ()) (.ok [['X']]) (.error .Write)).1 = .error .Write ∧
    (Except.error Error.Write : Except Error (List Line)) ≠ .ok [['X']] := by
  decide

/-- C5 (amended): `monitor_all` issues the monitor command with
`write_no_resp` (no immediate read) and propagates its failure without
reading; otherwise it performs the read with the caller's predicate and then
always sends the empty write-with-response to stop monitoring — even if the
read failed.  If that stop write succeeds, the original read's result or
error is propagated; if the stop write fails, its own error is returned
instead (masking the read's outcome). -/
theorem claim_C5 (wATMA : Except Error Unit) (rd : Except Error (List Line))
    (wStop : Except Error (List Line)) :
    (∀ e, wATMA = .error e →
      monitorAll wATMA rd wStop = (.error e, [.cmdATMA])) ∧
    (wATMA = .ok () →
      (monitorAll wATMA rd wStop).2 = [.cmdATMA, .readOp, .stopWrite]) ∧
    (∀ x, wATMA = .ok () → wStop = .ok x →
      (monitorAll wATMA rd wStop).1 = rd) ∧
    (∀ e, wATMA = .ok () → wStop = .error e →
      (monitorAll wATMA rd wStop).1 = .error e) := by
  refine ⟨?_, ?_, ?_, ?_⟩
  · intro e he
    subst he
    rfl
  · intro h
    subst h
    cases wStop <;> rfl
  · intro x h1 h2
    subst h1
    subst h2
    rfl
  · intro e h1 h2
    subst h1
    subst h2
    rfl

/-- Witness for C5 on the trace where the read fails but the stop write
succeeds: the stop write is still performed, and the read's error is
propagated. -/
theorem claim_C5_witness :
    (monitorAll (.ok ()) (.error .Read) (.ok [])).2 =
      [.cmdATMA, .readOp, .stopWrite] ∧
    (monitorAll (.ok ()) (.error .Read) (.ok [])).1 = .error .Read :=
  ⟨(claim_C5 (.ok ()) (.error .Read) (.ok [])).2.1 rfl,
    (claim_C5 (.ok ()) (.error .Read) (.ok [])).2.2.1 [] rfl rfl⟩

/-- C6: `write_retry` with `max_attempts = 3` against a transport whose
`write_timeout` always times out makes exactly 3 attempts and returns
`TimedOut`; against one that times out twice and then succeeds it returns the
successful result on the 3rd attempt; and a non-timeout error on any attempt
aborts immediately, with that attempt the last one made. -/
theorem claim_C6 (oracle : Nat → Except Error (List Line)) :
    ((∀ n, oracle n = .error .TimedOut) →
      writeRetry oracle 3 = (.error .TimedOut, 3)) ∧
    (∀ x, oracle 1 = .error .TimedOut → oracle 2 = .error .TimedOut →
      oracle 3 = .ok x → writeRetry oracle 3 = (.ok x, 3)) ∧
    (∀ e retry n, oracle n = .error e → e ≠ .TimedOut →
      writeRetryGo oracle retry n = (.error e, n)) := by
  refine ⟨?_, ?_, ?_⟩
  · intro h
    rw [writeRetry, writeRetryGo_timeout_lt oracle 3 1 (h 1) (by omega),
      writeRetryGo_timeout_lt oracle 3 2 (h 2) (by omega),
      writeRetryGo_timeout_ge oracle 3 3 (h 3) (by omega)]
  · intro x h1 h2 h3
    rw [writeRetry, writeRetryGo_timeout_lt oracle 3 1 h1 (by omega),
      writeRetryGo_timeout_lt oracle 3 2 h2 (by omega),
      writeRetryGo_ok oracle 3 3 x h3]
  · intro e retry n h hne
    exact writeRetryGo_err oracle retry n e h hne

/-- Witness for C6: an always-timing-out oracle makes exactly 3 attempts; a
twice-timeout-then-success oracle returns the result on the 3rd attempt; an
immediate `Write` error aborts after 1 attempt. -/
theorem claim_C6_witness :
    writeRetry (fun _ => .error .TimedOut) 3 = (.error .TimedOut, 3) ∧
    writeRetry (fun n => if n = 3 then .ok [['O']] else .error .TimedOut) 3 =
      (.ok [['O']], 3) ∧
    writeRetryGo (fun _ => .error .Write) 5 1 = (.error .Write, 1) :=
  ⟨(claim_C6 (fun _ => .error .TimedOut)).1 (fun _ => rfl),
    (claim_C6 (fun n => if n = 3 then .ok [['O']] else .error .TimedOut)).2.1
      [['O']] (by decide) (by decide) (by decide),
    (claim_C6 (fun _ => .error .Write)).2.2 .Write 5 1 rfl (by decide)⟩

/-- C9: connection establishment starts its attempt counter at 0
(`fromPath … = fromPathGo … 0`) with a default ceiling of 3 when
unspecified; it fails with `TimedOut` once the counter reaches the ceiling;
after a successful open with counter `n` it performs exactly `n` warm-up
reads, each bounded to 500 ms, then sends the ATZ reset with a 3-second
timeout, returning the session on success and incrementing the counter and
retrying on failure; and the warm-up reads' outcomes never influence the
result — they are discarded regardless of success or failure. -/
theorem claim_C9 (o : Nat → Bool) (w w2 : Nat → Nat → Bool)
    (a : Nat → Bool) :
    fromPath o w a none = fromPathGo o w a 3 0 ∧
    (∀ retry n, retry ≤ n →
      fromPathGo o w a retry n = (.error .TimedOut, [])) ∧
    (∀ retry n, n < retry → o n = true → a n = true →
      fromPathGo o w a retry n = (.ok (), .openAttempt true ::
        (List.range n).map (fun i => ConnEvent.warmupRead 500 (w n i)) ++
          [.reset 3000 true])) ∧
    (∀ retry n, n < retry → o n = true → a n = false →
      fromPathGo o w a retry n = ((fromPathGo o w a retry (n + 1)).1,
        .openAttempt true ::
          (List.range n).map (fun i => ConnEvent.warmupRead 500 (w n i)) ++
            [.reset 3000 false] ++ (fromPathGo o w a retry (n + 1)).2)) ∧
    (∀ retryOpt, (fromPath o w a retryOpt).1 = (fromPath o w2 a retryOpt).1) := by
  refine ⟨rfl, ?_, ?_, ?_, ?_⟩
  · intro retry n hge
    exact fromPathGo_stop o w a retry n hge
  · intro retry n hlt ho ha
    exact fromPathGo_open_atzok o w a retry n hlt ho ha
  · intro retry n hlt ho ha
    exact fromPathGo_open_atzfail o w a retry n hlt ho ha
  · intro retryOpt
    rw [fromPath, fromPath]
    exact fromPathGo_warm_irrel o w w2 a (retryOpt.getD 3) (retryOpt.getD 3) 0
      (by omega)

/-- Witness for C9: the ceiling reached at counter 3 fails with `TimedOut`;
a first-retry success (counter 1) performs exactly one 500 ms warm-up read
and one successful 3-second ATZ reset. -/
theorem claim_C9_witness :
    fromPathGo (fun _ => false) (fun _ _ => true) (fun _ => true) 3 3 =
      (.error .TimedOut, []) ∧
    fromPathGo (fun n => n == 1) (fun _ _ => true) (fun _ => true) 3 1 =
      (.ok (), .openAttempt true ::
        (List.range 1).map
          (fun i => ConnEvent.warmupRead 500 ((fun _ _ => true) 1 i)) ++
          [.reset 3000 true]) :=
  ⟨(claim_C9 (fun _ => false) (fun _ _ => true) (fun _ _ => true)
      (fun _ => true)).2.1 3 3 (by omega),
    (claim_C9 (fun n => n == 1) (fun _ _ => true) (fun _ _ => true)
      (fun _ => true)).2.2.1 3 1 (by omega) (by decide) (by decide)⟩

end Elm
